import Mathlib

/-!
Shallow embedding of the chess-companion session core (src/src/App.tsx and
src/src/stockfishAPI.ts) together with the reactive step semantics induced by
React's state/effect model, and proofs checking the specification's claims.

Modelling conventions:
* chess.js is the external RulesEngine; it is embedded as an abstract `Engine`
  record whose fields mirror exactly the chess.js calls App.tsx makes
  (`turn`, `isGameOver`, `get`, `moves({square, verbose})`,
  `move({from,to,promotion})`, `move(text)`, and the game-over predicates).
  A `Chess` object is identified with its FEN string, which is how App.tsx
  itself moves positions around (`new Chess(game.fen())`).
* React `useState` cells become the fields of `AppState`; each handler in
  App.tsx becomes a pure state transformer.
* The auto-move `useEffect` (App.tsx lines 29-60) re-runs whenever one of its
  dependencies `[game, moveHistory, autoColor, isAnalyzing]` changes; this is
  modelled by applying `runEffect` after every step that changes one of those
  dependencies.  Issuing an oracle request appends the captured FEN
  (`game.fen()` at request time — the value the async closure holds across the
  `await`) to a multiset of outstanding requests; a resolution step removes one
  outstanding request and runs the continuation of `calculateAndPlayBestMove`
  after the `await`.
-/

namespace ChessCompanion

/-- Piece colors, chess.js 'w' / 'b'. -/
inductive Color
  | w
  | b
deriving DecidableEq, Repr

/-- The opposite color: App.tsx `playerColor === 'w' ? 'b' : 'w'`. -/
def Color.other : Color → Color
  | .w => .b
  | .b => .w

/-- Positions are FEN strings, as in App.tsx (`game.fen()`). -/
abbrev Fen := String

/-- Squares are algebraic-notation strings (chess.js `Square`). -/
abbrev Square := String

/-- Result of a successful chess.js `move` call: the SAN notation of the move
and the FEN of the resulting position (`moveResult.san`, `newGame.fen()`). -/
structure MoveResult where
  san : String
  fen : Fen
deriving DecidableEq, Repr

/-- The external rules engine (chess.js) as consumed by App.tsx.  Each field is
one chess.js method used by the source; `move` is the object form
`move({from, to, promotion: "q"})` and `moveText` the string form
`move(bestMove)`, both returning `null` (here `none`) on an illegal move. -/
structure Engine where
  initFen : Fen
  turn : Fen → Color
  isGameOver : Fen → Bool
  isCheckmate : Fen → Bool
  isDraw : Fen → Bool
  isStalemate : Fen → Bool
  isThreefoldRepetition : Fen → Bool
  isInsufficientMaterial : Fen → Bool
  isCheck : Fen → Bool
  get : Fen → Square → Option Color
  movesFrom : Fen → Square → List Square
  move : Fen → Square → Square → Option MoveResult
  moveText : Fen → String → Option MoveResult

/-- chess.js contract: if `to` is among the verbose legal moves from `from`,
then `move({from, to, promotion:"q"})` succeeds. -/
def Engine.WF (E : Engine) : Prop :=
  ∀ f src dst, dst ∈ E.movesFrom f src → (E.move f src dst).isSome

/-- The React state cells of App.tsx lines 10-21, in source order.
`gameFen` stands for the `game` Chess object (identified with its FEN),
`currentMoveIndex` is a JS number that legitimately takes the value -1. -/
@[ext]
structure AppState where
  gameFen : Fen
  moveHistory : List String
  currentPosition : Fen
  isAnalyzing : Bool
  playerColor : Option Color
  selectedSquare : Option Square
  possibleMoves : List Square
  lastMove : Option String
  errorMessage : Option String
  currentMoveIndex : Int
  gameEndMessage : Option String
  positions : List Fen
deriving DecidableEq, Repr

/-- Initial values of all `useState` cells (App.tsx lines 10-21):
`positions` starts empty and `currentMoveIndex` at -1. -/
def initApp (E : Engine) : AppState :=
  { gameFen := E.initFen
    moveHistory := []
    currentPosition := E.initFen
    isAnalyzing := false
    playerColor := none
    selectedSquare := none
    possibleMoves := []
    lastMove := none
    errorMessage := none
    currentMoveIndex := -1
    gameEndMessage := none
    positions := [] }

/-- `manualColor` (App.tsx line 26): the side whose moves are entered by hand,
opposite of `playerColor` (the auto side), `null` when no side is chosen. -/
def manualColor (s : AppState) : Option Color :=
  s.playerColor.map Color.other

/-- `startNewGame` (App.tsx lines 225-242): a fresh `Chess` object, `positions`
reset to the single initial FEN, `moveHistory` emptied, `currentMoveIndex`
reset to -1 (not 0), `errorMessage` deliberately untouched by the source. -/
def startNewGame (E : Engine) (color : Color) (s : AppState) : AppState :=
  { s with
    gameFen := E.initFen
    currentPosition := E.initFen
    moveHistory := []
    positions := [E.initFen]
    playerColor := some color
    selectedSquare := none
    possibleMoves := []
    isAnalyzing := false
    lastMove := none
    currentMoveIndex := -1
    gameEndMessage := none }

/-- `changeColor` (App.tsx lines 244-246): only clears the chosen side. -/
def changeColor (s : AppState) : AppState :=
  { s with playerColor := none }

/-- Direction argument of `navigateMove`. -/
inductive NavDir
  | forward
  | back
deriving DecidableEq, Repr

/-- `navigateMove` (App.tsx lines 254-263).  `Math.min`/`Math.max` on JS
numbers become `min`/`max` on `Int`; the JS array read `positions[newIndex]`
yields `undefined` out of range, modelled by the sentinel string
"undefined" (never reached from a reachable state, see the invariant). -/
def navigateMove (d : NavDir) (s : AppState) : AppState :=
  let newIndex : Int :=
    match d with
    | .forward => min (s.currentMoveIndex + 1) ((s.positions.length : Int) - 1)
    | .back => max (s.currentMoveIndex - 1) 0
  if newIndex ≠ s.currentMoveIndex then
    { s with
      currentMoveIndex := newIndex
      currentPosition := (s.positions.get? newIndex.toNat).getD "undefined" }
  else s

/-- `isValidManualMove` (App.tsx lines 97-115), eligibility gate.  The source
returns `false` after `setErrorMessage(msg)`; here `some msg` is that failure
and `none` means the source returned `true`.  All checks read `game`
(`s.gameFen`), never the navigation cursor. -/
def isValidManualMove (E : Engine) (s : AppState) : Option String :=
  if s.playerColor = none then some "Please select a color first"
  else if s.isAnalyzing then some "Please wait, calculating move..."
  else if E.isGameOver s.gameFen then some "Game is over"
  else
    match manualColor s with
    | some m => if E.turn s.gameFen ≠ m then some "It is not the opponent’s turn to move" else none
    | none => none

/-- `validateManualMove` (App.tsx lines 117-144), legality gate.  Returns the
source's boolean together with the error message it sets (the
`!manualColor` branch returns `false` without setting any message). -/
def validateManualMove (E : Engine) (src dst : Square) (s : AppState) :
    Bool × Option String :=
  if src = "" ∨ dst = "" then (false, some "Invalid move: Missing source or destination")
  else
    match manualColor s with
    | none => (false, none)
    | some m =>
      match E.get s.gameFen src with
      | none => (false, some "No piece at selected position")
      | some c =>
        if c ≠ m then (false, some "You can only move the opponent’s pieces manually")
        else if ¬ dst ∈ E.movesFrom s.gameFen src then (false, some "Illegal move for this piece")
        else (true, none)

/-- Apply an optional `setErrorMessage` call. -/
def setErr (s : AppState) (m : Option String) : AppState :=
  match m with
  | some msg => { s with errorMessage := some msg }
  | none => s

/-- `makeManualMove` (App.tsx lines 146-172): eligibility, legality, then
`new Chess(game.fen()).move({from, to, promotion: "q"})`; on success appends
to `moveHistory` and `positions`, increments `currentMoveIndex`, clears the
selection and the error banner.  Returns the source's boolean. -/
def makeManualMove (E : Engine) (src dst : Square) (s : AppState) :
    Bool × AppState :=
  match isValidManualMove E s with
  | some msg => (false, { s with errorMessage := some msg })
  | none =>
    match validateManualMove E src dst s with
    | (false, msg) => (false, setErr s msg)
    | (true, _) =>
      match E.move s.gameFen src dst with
      | none => (false, { s with errorMessage := some "Invalid manual move" })
      | some r =>
        (true,
          { s with
            gameFen := r.fen
            currentPosition := r.fen
            moveHistory := s.moveHistory ++ [r.san]
            positions := s.positions ++ [r.fen]
            currentMoveIndex := s.currentMoveIndex + 1
            selectedSquare := none
            possibleMoves := []
            errorMessage := none })

/-- `onDrop` (App.tsx lines 207-209): drag-and-drop goes straight to
`makeManualMove`. -/
def onDrop (E : Engine) (src dst : Square) (s : AppState) : Bool × AppState :=
  makeManualMove E src dst s

/-- `getMoveOptions` (App.tsx lines 211-221).  In the source it re-runs
`isValidManualMove` (whose message side effect is unreachable at its call
sites, since it is only called right after the same gate passed on an
unchanged state) and maps the verbose moves to their `to` squares. -/
def getMoveOptions (E : Engine) (sq : Square) (s : AppState) : List Square :=
  match isValidManualMove E s with
  | some _ => []
  | none => E.movesFrom s.gameFen sq

/-- `onSquareClick` (App.tsx lines 174-205): the click-to-move selection
machine layered over `makeManualMove`.  The returned boolean records whether a
move was actually applied (i.e. whether the effect dependencies changed). -/
def onSquareClick (E : Engine) (sq : Square) (s : AppState) : Bool × AppState :=
  match isValidManualMove E s with
  | some msg =>
    (false, { s with errorMessage := some msg, selectedSquare := none, possibleMoves := [] })
  | none =>
    match s.selectedSquare with
    | some sel =>
      match makeManualMove E sel sq s with
      | (true, s1) => (true, s1)
      | (false, s1) =>
        match E.get s1.gameFen sq with
        | some c =>
          if manualColor s1 = some c then
            (false,
              { s1 with
                selectedSquare := some sq
                possibleMoves := getMoveOptions E sq s1
                errorMessage := none })
          else (false, { s1 with selectedSquare := none, possibleMoves := [] })
        | none => (false, { s1 with selectedSquare := none, possibleMoves := [] })
    | none =>
      match E.get s.gameFen sq with
      | some c =>
        if manualColor s = some c then
          (false,
            { s with
              selectedSquare := some sq
              possibleMoves := getMoveOptions E sq s
              errorMessage := none })
        else (false, s)
      | none => (false, s)

/-- `getBestMoveOnline` (src/src/stockfishAPI.ts lines 10-26) as a function of
the decoded response body `{success, bestmove}`: resolves with `bestmove` only
when `success` and `bestmove` are both truthy (a truthy string is a non-empty
one), otherwise throws; the catch block rethrows. -/
def getBestMoveOnline (success : Bool) (bestmove : String) : Except String String :=
  if success = true ∧ bestmove ≠ "" then Except.ok bestmove
  else Except.error "Online API did not return a valid best move."

/-- The `finally` block of `calculateAndPlayBestMove` (App.tsx lines 87-91). -/
def clearTransient (s : AppState) : AppState :=
  { s with isAnalyzing := false, selectedSquare := none, possibleMoves := [] }

/-- Continuation of `calculateAndPlayBestMove` (App.tsx lines 63-93) after the
`await`: `captured` is the FEN the async closure holds (`game.fen()` of the
render that issued the request — NOT necessarily the live position any more),
`result` the settled promise of `getBestMoveOnline`.  The functional updates
(`prev => ...`) read the state at resolution time `s`, while
`new Chess(game.fen())` reads the captured closure. -/
def resolveOracle (E : Engine) (captured : Fen) (result : Except String String)
    (s : AppState) : AppState :=
  match result with
  | .error _ => clearTransient { s with errorMessage := some "Error calculating move" }
  | .ok bestMove =>
    if bestMove = "" then
      clearTransient { s with errorMessage := some "Failed to get AI move suggestion" }
    else
      match E.moveText captured bestMove with
      | none => clearTransient { s with errorMessage := some "Invalid AI move" }
      | some r =>
        clearTransient
          { s with
            gameFen := r.fen
            currentPosition := r.fen
            moveHistory := s.moveHistory ++ [r.san]
            positions := s.positions ++ [r.fen]
            currentMoveIndex := s.currentMoveIndex + 1
            lastMove := some r.san }

/-- Which branch of `calculateAndPlayBestMove`'s resolution runs: the
`if (!bestMove)` branch, the `if (!moveResult)` branch, the success path, or
the `catch` block. -/
inductive OracleBranch
  | failedSuggestion
  | invalidMove
  | applied
  | errored
deriving DecidableEq, Repr

/-- Control-flow tag of `resolveOracle` on the same inputs. -/
def resolveBranch (E : Engine) (captured : Fen) (result : Except String String) :
    OracleBranch :=
  match result with
  | .error _ => .errored
  | .ok bestMove =>
    if bestMove = "" then .failedSuggestion
    else
      match E.moveText captured bestMove with
      | none => .invalidMove
      | some _ => .applied

/-- The game-end banner built by the auto-move effect (App.tsx lines 41-57). -/
def endMessage (E : Engine) (f : Fen) : String :=
  if E.isCheckmate f then
    if E.turn f = Color.w then "Checkmate! Black wins! 🏆" else "Checkmate! White wins! 🏆"
  else if E.isDraw f then "It\x27s a draw! 🤝"
  else if E.isStalemate f then "Stalemate! Game is drawn! 🤝"
  else if E.isThreefoldRepetition f then "Draw by repetition! 🔄"
  else if E.isInsufficientMaterial f then "Draw by insufficient material! ⚖️"
  else ""

/-- Guard of `makeAutoMove` inside the effect (App.tsx lines 31-37):
`autoColor && game.turn() === autoColor && !game.isGameOver() && !isAnalyzing`
(the additional `if (game.isGameOver()) return` at the top of
`calculateAndPlayBestMove` is subsumed by the third conjunct). -/
def effectGuard (E : Engine) (s : AppState) : Bool :=
  match s.playerColor with
  | none => false
  | some c => decide (E.turn s.gameFen = c) && !E.isGameOver s.gameFen && !s.isAnalyzing

/-- Whole system: the App state plus the captured FENs of the outstanding
`getBestMoveOnline` promises (the in-flight async closures). -/
structure SysState where
  app : AppState
  pending : List Fen
deriving DecidableEq, Repr

/-- One run of the auto-move `useEffect` (App.tsx lines 29-60): update the
game-end banner from the live game, and, when the guard holds, start
`calculateAndPlayBestMove` — `setIsAnalyzing(true)` and one request issued
against the current `game.fen()`. -/
def runEffect (E : Engine) (t : SysState) : SysState :=
  let s1 : AppState :=
    { t.app with
      gameEndMessage :=
        if E.isGameOver t.app.gameFen then some (endMessage E t.app.gameFen) else none }
  if effectGuard E t.app then
    { app := { s1 with isAnalyzing := true }, pending := t.pending ++ [t.app.gameFen] }
  else
    { app := s1, pending := t.pending }

/-- The state after mounting: all cells at their `useState` initials, the
effect has run once (no side selected, so it only refreshes the banner). -/
def initSys (E : Engine) : SysState :=
  runEffect E ⟨initApp E, []⟩

/-- One observable step of the system.  User-driven steps run the effect
afterwards exactly when they changed one of its dependencies
`[game, moveHistory, autoColor, isAnalyzing]`; navigation changes neither, a
failed move attempt changes only the error banner and the selection.  The
board and the side panel are rendered only once a side is selected
(App.tsx line 266), so clicks, drops and navigation require `playerColor`.
A `resolve` step settles any one outstanding request. -/
inductive Step (E : Engine) : SysState → SysState → Prop
  | startNew (c : Color) (t : SysState) :
      Step E t (runEffect E ⟨startNewGame E c t.app, t.pending⟩)
  | changeSide (t : SysState) :
      Step E t (runEffect E ⟨changeColor t.app, t.pending⟩)
  | navigate (d : NavDir) (t : SysState) (h : t.app.playerColor ≠ none) :
      Step E t ⟨navigateMove d t.app, t.pending⟩
  | drop (src dst : Square) (t : SysState) (h : t.app.playerColor ≠ none) :
      Step E t
        (if (makeManualMove E src dst t.app).1 then
          runEffect E ⟨(makeManualMove E src dst t.app).2, t.pending⟩
        else ⟨(makeManualMove E src dst t.app).2, t.pending⟩)
  | click (sq : Square) (t : SysState) (h : t.app.playerColor ≠ none) :
      Step E t
        (if (onSquareClick E sq t.app).1 then
          runEffect E ⟨(onSquareClick E sq t.app).2, t.pending⟩
        else ⟨(onSquareClick E sq t.app).2, t.pending⟩)
  | resolve (t : SysState) (i : Nat) (res : Except String String)
      (h : i < t.pending.length) :
      Step E t
        (runEffect E
          ⟨resolveOracle E (t.pending.get ⟨i, h⟩) res t.app, t.pending.eraseIdx i⟩)

/-- States reachable from the freshly mounted application. -/
def Reachable (E : Engine) (t : SysState) : Prop :=
  Relation.ReflTransGen (Step E) (initSys E) t

/-!
A small concrete rules engine used to evaluate the session logic on explicit
runs.  Its game tree: in position "A" (initial, White to move) White's piece
on e2 can go to e4 giving position "B", and the engine also accepts the move
texts "m1" (to "B") and "m2" (to "C"); "B" and "C" have Black to move and no
further moves.  The session layer of App.tsx treats the engine as a black box,
so any engine exercises it faithfully.
-/

/-- Concrete test engine. -/
def ToyEngine : Engine :=
  { initFen := "A"
    turn := fun f => if f = "B" ∨ f = "C" then Color.b else Color.w
    isGameOver := fun _ => false
    isCheckmate := fun _ => false
    isDraw := fun _ => false
    isStalemate := fun _ => false
    isThreefoldRepetition := fun _ => false
    isInsufficientMaterial := fun _ => false
    isCheck := fun _ => false
    get := fun f sq => if f = "A" ∧ sq = "e2" then some Color.w else none
    movesFrom := fun f sq => if f = "A" ∧ sq = "e2" then ["e4"] else []
    move := fun f src dst =>
      if f = "A" ∧ src = "e2" ∧ dst = "e4" then some ⟨"e4", "B"⟩ else none
    moveText := fun f txt =>
      if f = "A" ∧ txt = "m1" then some ⟨"m1", "B"⟩
      else if f = "A" ∧ txt = "m2" then some ⟨"m2", "C"⟩
      else none }

/-!
Concrete run 1 (oracle side = White, the side to move at "A"): exhibits the
unguarded race.  `u1`: a new game is started, the effect fires one request
captured against "A".  `u2`: the user starts a new game again while that
request is outstanding; the reset clears `isAnalyzing`, so the effect fires a
second request — two are now outstanding.  `u3`: the first response "m1"
resolves and is applied, the live position becomes "B".  `u4`: the second,
now stale response "m2" (captured against "A", current position "B") resolves
and is applied anyway.
-/

/-- Run 1, state after `startNewGame('w')`. -/
def u1 : SysState :=
  runEffect ToyEngine ⟨startNewGame ToyEngine Color.w (initSys ToyEngine).app,
    (initSys ToyEngine).pending⟩

/-- Run 1, state after a second `startNewGame('w')` during the await. -/
def u2 : SysState :=
  runEffect ToyEngine ⟨startNewGame ToyEngine Color.w u1.app, u1.pending⟩

/-- Run 1, state after the first outstanding request resolves with "m1". -/
def u3 : SysState :=
  runEffect ToyEngine
    ⟨resolveOracle ToyEngine (u2.pending.get ⟨0, by decide⟩) (Except.ok "m1") u2.app,
      u2.pending.eraseIdx 0⟩

/-- Run 1, state after the remaining (stale) request resolves with "m2". -/
def u4 : SysState :=
  runEffect ToyEngine
    ⟨resolveOracle ToyEngine (u3.pending.get ⟨0, by decide⟩) (Except.ok "m2") u3.app,
      u3.pending.eraseIdx 0⟩

/-!
Concrete run 2 (oracle side = Black, so the human moves first): `v1` start a
new game as Black-auto, `v2` the human plays e2-e4 (the effect then fires a
request for Black), `v3` the user hits "change side" while that request is
outstanding.
-/

/-- Run 2, state after `startNewGame('b')`. -/
def v1 : SysState :=
  runEffect ToyEngine ⟨startNewGame ToyEngine Color.b (initSys ToyEngine).app,
    (initSys ToyEngine).pending⟩

/-- Run 2, state after the manual move e2-e4 (a successful drop). -/
def v2 : SysState :=
  runEffect ToyEngine ⟨(makeManualMove ToyEngine "e2" "e4" v1.app).2, v1.pending⟩

/-- Run 2, state after `changeColor` during the outstanding request. -/
def v3 : SysState :=
  runEffect ToyEngine ⟨changeColor v2.app, v2.pending⟩

/-!
Concrete run 3 (oracle side = White): the request issued at the new game
resolves with a text "zz" that names no legal move of "A".
-/

/-- Run 3, state after the oracle request at `u1` resolves with illegal text. -/
def w2 : SysState :=
  runEffect ToyEngine
    ⟨resolveOracle ToyEngine (u1.pending.get ⟨0, by decide⟩) (Except.ok "zz") u1.app,
      u1.pending.eraseIdx 0⟩

/-- The reachable-state invariant, at the level of an app state `s` and a list
`p` of outstanding requests: before the first new game everything is empty and
the cursor is -1; afterwards `moveHistory` stays one shorter than `positions`,
the cursor stays in `[-1, len-1]`, and the live `game` is the last recorded
position. -/
def InvApp (s : AppState) (p : List Fen) : Prop :=
  (s.positions = [] →
    s.moveHistory = [] ∧ s.currentMoveIndex = -1 ∧ s.playerColor = none ∧ p = [])
  ∧ (s.positions ≠ [] →
      s.moveHistory.length + 1 = s.positions.length
      ∧ -1 ≤ s.currentMoveIndex
      ∧ s.currentMoveIndex ≤ (s.positions.length : Int) - 1
      ∧ s.positions.getLast? = some s.gameFen)

/-- The invariant of a system state. -/
def Inv (t : SysState) : Prop :=
  InvApp t.app t.pending

/-- The error, if any, of a manual move attempt, written exactly in the
specification's order (NoActiveGame, AnalysisInProgress, GameOver, WrongTurn,
NoPieceAtSource, WrongPieceColor, IllegalMove), with every positional check
made against an explicitly supplied `lastFen`.  Compared below with what
`makeManualMove` (translated from the source) actually reports. -/
def specError (E : Engine) (s : AppState) (lastFen : Fen) (src dst : Square) :
    Option String :=
  match s.playerColor with
  | none => some "Please select a color first"
  | some pc =>
    if s.isAnalyzing then some "Please wait, calculating move..."
    else if E.isGameOver lastFen then some "Game is over"
    else if E.turn lastFen ≠ Color.other pc then some "It is not the opponent’s turn to move"
    else
      match E.get lastFen src with
      | none => some "No piece at selected position"
      | some c =>
        if c ≠ Color.other pc then some "You can only move the opponent’s pieces manually"
        else if ¬ dst ∈ E.movesFrom lastFen src then some "Illegal move for this piece"
        else none

/-- `n` presses of the same navigation button. -/
def navN (d : NavDir) : Nat → AppState → AppState
  | 0, s => s
  | n + 1, s => navigateMove d (navN d n s)

/-- The displayed position agrees with the cursor (`currentPosition` is the
cursor's entry of `positions`).  This holds after any navigation step but NOT
immediately after a move (the source then shows the new last position while
the cursor lags one behind). -/
def Synced (s : AppState) : Prop :=
  0 ≤ s.currentMoveIndex ∧
  s.positions.get? s.currentMoveIndex.toNat = some s.currentPosition

instance (s : AppState) : Decidable (Synced s) := by
  unfold Synced
  infer_instance

theorem reach_u1 : Reachable ToyEngine u1 :=
  Relation.ReflTransGen.single (Step.startNew Color.w (initSys ToyEngine))

theorem reach_u2 : Reachable ToyEngine u2 :=
  reach_u1.tail (Step.startNew Color.w u1)

theorem reach_u3 : Reachable ToyEngine u3 :=
  reach_u2.tail (Step.resolve u2 0 (Except.ok "m1") (by decide))

theorem reach_u4 : Reachable ToyEngine u4 :=
  reach_u3.tail (Step.resolve u3 0 (Except.ok "m2") (by decide))

theorem reach_v1 : Reachable ToyEngine v1 :=
  Relation.ReflTransGen.single (Step.startNew Color.b (initSys ToyEngine))

theorem step_v1_v2 : Step ToyEngine v1 v2 := by
  have h := Step.drop (E := ToyEngine) "e2" "e4" v1 (by decide)
  have he : (if (makeManualMove ToyEngine "e2" "e4" v1.app).1 then
      runEffect ToyEngine ⟨(makeManualMove ToyEngine "e2" "e4" v1.app).2, v1.pending⟩
    else ⟨(makeManualMove ToyEngine "e2" "e4" v1.app).2, v1.pending⟩) = v2 := by decide
  exact he ▸ h

theorem reach_v2 : Reachable ToyEngine v2 :=
  reach_v1.tail step_v1_v2

theorem step_v2_v3 : Step ToyEngine v2 v3 :=
  Step.changeSide v2

theorem reach_v3 : Reachable ToyEngine v3 :=
  reach_v2.tail step_v2_v3

theorem step_u1_w2 : Step ToyEngine u1 w2 :=
  Step.resolve u1 0 (Except.ok "zz") (by decide)

theorem reach_w2 : Reachable ToyEngine w2 :=
  reach_u1.tail step_u1_w2

theorem isValidManualMove_playerColor (E : Engine) (s : AppState)
    (h : isValidManualMove E s = none) : s.playerColor ≠ none := by
  intro hp
  simp [isValidManualMove, hp] at h

theorem makeManualMove_core (E : Engine) (src dst : Square) (s : AppState) :
    ((makeManualMove E src dst s).1 = false ∧
      (makeManualMove E src dst s).2.positions = s.positions ∧
      (makeManualMove E src dst s).2.moveHistory = s.moveHistory ∧
      (makeManualMove E src dst s).2.currentMoveIndex = s.currentMoveIndex ∧
      (makeManualMove E src dst s).2.gameFen = s.gameFen ∧
      (makeManualMove E src dst s).2.playerColor = s.playerColor)
    ∨ ((makeManualMove E src dst s).1 = true ∧ s.playerColor ≠ none ∧
        ∃ r : MoveResult, E.move s.gameFen src dst = some r ∧
          (makeManualMove E src dst s).2.positions = s.positions ++ [r.fen] ∧
          (makeManualMove E src dst s).2.moveHistory = s.moveHistory ++ [r.san] ∧
          (makeManualMove E src dst s).2.currentMoveIndex = s.currentMoveIndex + 1 ∧
          (makeManualMove E src dst s).2.gameFen = r.fen ∧
          (makeManualMove E src dst s).2.playerColor = s.playerColor) := by
  unfold makeManualMove
  cases hv : isValidManualMove E s with
  | some msg => simp
  | none =>
    have hpc := isValidManualMove_playerColor E s hv
    cases hvm : validateManualMove E src dst s with
    | mk b msg =>
      cases b with
      | false => cases msg <;> simp [setErr]
      | true =>
        cases hm : E.move s.gameFen src dst with
        | none => simp
        | some r =>
          right
          exact ⟨rfl, hpc, r, rfl, by simp, by simp, by simp, rfl, rfl⟩

theorem resolveOracle_core (E : Engine) (captured : Fen) (result : Except String String)
    (s : AppState) :
    ((resolveOracle E captured result s).positions = s.positions ∧
      (resolveOracle E captured result s).moveHistory = s.moveHistory ∧
      (resolveOracle E captured result s).currentMoveIndex = s.currentMoveIndex ∧
      (resolveOracle E captured result s).gameFen = s.gameFen ∧
      (resolveOracle E captured result s).playerColor = s.playerColor)
    ∨ (∃ txt r, result = Except.ok txt ∧ E.moveText captured txt = some r ∧
        (resolveOracle E captured result s).positions = s.positions ++ [r.fen] ∧
        (resolveOracle E captured result s).moveHistory = s.moveHistory ++ [r.san] ∧
        (resolveOracle E captured result s).currentMoveIndex = s.currentMoveIndex + 1 ∧
        (resolveOracle E captured result s).gameFen = r.fen ∧
        (resolveOracle E captured result s).playerColor = s.playerColor) := by
  unfold resolveOracle
  cases result with
  | error e => simp [clearTransient]
  | ok txt =>
    by_cases htxt : txt = ""
    · simp [htxt, clearTransient]
    · cases hm : E.moveText captured txt with
      | none => simp [htxt, hm, clearTransient]
      | some r =>
        right
        exact ⟨txt, r, rfl, hm, by simp [htxt, hm, clearTransient],
          by simp [htxt, hm, clearTransient], by simp [htxt, hm, clearTransient],
          by simp [htxt, hm, clearTransient], by simp [htxt, hm, clearTransient]⟩

theorem onSquareClick_core (E : Engine) (sq : Square) (s : AppState) :
    ((onSquareClick E sq s).2.positions = s.positions ∧
      (onSquareClick E sq s).2.moveHistory = s.moveHistory ∧
      (onSquareClick E sq s).2.currentMoveIndex = s.currentMoveIndex ∧
      (onSquareClick E sq s).2.gameFen = s.gameFen ∧
      (onSquareClick E sq s).2.playerColor = s.playerColor)
    ∨ (∃ sel, onSquareClick E sq s = makeManualMove E sel sq s ∧
        (makeManualMove E sel sq s).1 = true) := by
  unfold onSquareClick
  cases hv : isValidManualMove E s with
  | some msg => simp
  | none =>
    cases hsel : s.selectedSquare with
    | none =>
      cases hg : E.get s.gameFen sq with
      | none => simp
      | some c =>
        by_cases hmc : manualColor s = some c
        · simp [hmc]
        · simp [hmc]
    | some sel =>
      cases hmm : makeManualMove E sel sq s with
      | mk b s1 =>
        cases b with
        | true =>
          right
          exact ⟨sel, by simp [hmm], by simp [hmm]⟩
        | false =>
          left
          rcases makeManualMove_core E sel sq s with
            ⟨_, hp, hh, hc, hg, hpc⟩ | ⟨htrue, _⟩
          · rw [hmm] at hp hh hc hg hpc
            cases hg2 : E.get s1.gameFen sq with
            | none =>
              simp only [hmm, hg2]
              exact ⟨hp, hh, hc, hg, hpc⟩
            | some c =>
              by_cases hmc : manualColor s1 = some c
              · simp only [hmm, hg2, hmc, if_pos]
                exact ⟨hp, hh, hc, hg, hpc⟩
              · simp only [hmm, hg2, if_neg hmc]
                exact ⟨hp, hh, hc, hg, hpc⟩
          · rw [hmm] at htrue
            simp at htrue

theorem effectGuard_playerColor (E : Engine) (s : AppState)
    (h : effectGuard E s = true) : s.playerColor ≠ none := by
  intro hp
  simp [effectGuard, hp] at h

theorem runEffect_app (E : Engine) (t : SysState) :
    (runEffect E t).app.positions = t.app.positions ∧
    (runEffect E t).app.moveHistory = t.app.moveHistory ∧
    (runEffect E t).app.currentMoveIndex = t.app.currentMoveIndex ∧
    (runEffect E t).app.gameFen = t.app.gameFen ∧
    (runEffect E t).app.playerColor = t.app.playerColor ∧
    (runEffect E t).app.currentPosition = t.app.currentPosition ∧
    (runEffect E t).app.errorMessage = t.app.errorMessage := by
  unfold runEffect
  by_cases h : effectGuard E t.app = true
  · simp [h]
  · simp [h]

theorem runEffect_pending (E : Engine) (t : SysState) :
    (runEffect E t).pending = t.pending ∨
    ((runEffect E t).pending = t.pending ++ [t.app.gameFen] ∧ t.app.playerColor ≠ none) := by
  unfold runEffect
  by_cases h : effectGuard E t.app = true
  · right
    exact ⟨by simp [h], effectGuard_playerColor E t.app h⟩
  · left
    simp [h]

theorem navigateMove_app (d : NavDir) (s : AppState) :
    (navigateMove d s).positions = s.positions ∧
    (navigateMove d s).moveHistory = s.moveHistory ∧
    (navigateMove d s).gameFen = s.gameFen ∧
    (navigateMove d s).playerColor = s.playerColor := by
  unfold navigateMove
  cases d <;> dsimp only <;> split <;> simp

theorem navigateMove_cursor (d : NavDir) (s : AppState) :
    (navigateMove d s).currentMoveIndex =
      match d with
      | .forward => min (s.currentMoveIndex + 1) ((s.positions.length : Int) - 1)
      | .back => max (s.currentMoveIndex - 1) 0 := by
  unfold navigateMove
  cases d <;> dsimp only <;> split <;> simp_all

theorem invApp_congr (s s' : AppState) (p p' : List Fen)
    (h1 : s'.positions = s.positions) (h2 : s'.moveHistory = s.moveHistory)
    (h3 : s'.currentMoveIndex = s.currentMoveIndex) (h4 : s'.gameFen = s.gameFen)
    (h5 : s'.playerColor = s.playerColor) (h6 : p' = p)
    (h : InvApp s p) : InvApp s' p' := by
  unfold InvApp at h ⊢
  rw [h1, h2, h3, h4, h5, h6]
  exact h

theorem invApp_append (s : AppState) (p : List Fen) (hInv : InvApp s p)
    (hne0 : s.positions ≠ []) (s' : AppState) (p' : List Fen) (fen : Fen) (san : String)
    (h1 : s'.positions = s.positions ++ [fen]) (h2 : s'.moveHistory = s.moveHistory ++ [san])
    (h3 : s'.currentMoveIndex = s.currentMoveIndex + 1) (h4 : s'.gameFen = fen) :
    InvApp s' p' := by
  obtain ⟨hlen, hlo, hhi, _⟩ := hInv.2 hne0
  constructor
  · intro hemp
    rw [h1] at hemp
    simp at hemp
  · intro _
    rw [h1, h2, h3, h4]
    refine ⟨by simp [← hlen], by omega, ?_, by simp⟩
    have : ((s.positions ++ [fen]).length : Int) = (s.positions.length : Int) + 1 := by
      simp
    omega

theorem inv_runEffect (E : Engine) (t : SysState) (hI : Inv t) :
    Inv (runEffect E t) := by
  obtain ⟨rp, rh, rc, rg, rpc, _, _⟩ := runEffect_app E t
  obtain ⟨h0, h1⟩ := hI
  constructor
  · intro hemp
    rw [rp] at hemp
    obtain ⟨a, b, c, d⟩ := h0 hemp
    refine ⟨by rw [rh]; exact a, by rw [rc]; exact b, by rw [rpc]; exact c, ?_⟩
    rcases runEffect_pending E t with hpd | ⟨_, hne⟩
    · rw [hpd]; exact d
    · exact absurd c hne
  · intro hne
    rw [rp] at hne
    obtain ⟨a, b, c2, d⟩ := h1 hne
    exact ⟨by rw [rh, rp]; exact a, by rw [rc]; exact b,
      by rw [rc, rp]; exact c2, by rw [rp, rg]; exact d⟩

theorem inv_step (E : Engine) (t t' : SysState) (hI : Inv t) (h : Step E t t') :
    Inv t' := by
  obtain ⟨h0, h1⟩ := hI
  cases h with
  | startNew c t =>
    apply inv_runEffect
    show InvApp (startNewGame E c t.app) t.pending
    constructor
    · intro hemp
      simp [startNewGame] at hemp
    · intro _
      simp [startNewGame]
  | changeSide t =>
    apply inv_runEffect
    show InvApp (changeColor t.app) t.pending
    constructor
    · intro hemp
      have hemp2 : t.app.positions = [] := hemp
      obtain ⟨a, b, _, d⟩ := h0 hemp2
      exact ⟨a, b, rfl, d⟩
    · intro hne
      have hne2 : t.app.positions ≠ [] := hne
      exact h1 hne2
  | navigate d t hpc =>
    show InvApp (navigateMove d t.app) t.pending
    obtain ⟨np, nh, ng, npcol⟩ := navigateMove_app d t.app
    have hne : t.app.positions ≠ [] := fun hemp => hpc (h0 hemp).2.2.1
    obtain ⟨hlen, hlo, hhi, hlast⟩ := h1 hne
    have hlen1 : 1 ≤ t.app.positions.length := by
      cases hp : t.app.positions with
      | nil => exact absurd hp hne
      | cons a l => simp
    have hlen1i : (1 : Int) ≤ (t.app.positions.length : Int) := by exact_mod_cast hlen1
    constructor
    · intro hemp
      rw [np] at hemp
      exact absurd hemp hne
    · intro _
      refine ⟨?_, ?_, ?_, ?_⟩
      · rw [nh, np]; exact hlen
      · rw [navigateMove_cursor]; cases d <;> dsimp only <;> omega
      · rw [navigateMove_cursor, np]; cases d <;> dsimp only <;> omega
      · rw [np, ng]; exact hlast
  | drop src dst t hpc =>
    rcases makeManualMove_core E src dst t.app with
      ⟨hb, mp, mh, mc, mg, mpc⟩ | ⟨hb, hpcol, r, hmv, mp, mh, mc, mg, mpc⟩
    · rw [hb]
      simp only [Bool.false_eq_true, if_false]
      show InvApp (makeManualMove E src dst t.app).2 t.pending
      exact invApp_congr _ _ _ _ mp mh mc mg mpc rfl ⟨h0, h1⟩
    · rw [hb]
      simp only [if_true]
      apply inv_runEffect
      show InvApp (makeManualMove E src dst t.app).2 t.pending
      have hne : t.app.positions ≠ [] := fun hemp => hpcol (h0 hemp).2.2.1
      exact invApp_append t.app t.pending ⟨h0, h1⟩ hne _ _ r.fen r.san mp mh mc mg
  | click sq t hpc =>
    rcases onSquareClick_core E sq t.app with
      ⟨cp, ch, cc, cg, cpc⟩ | ⟨sel, hcm, hbtrue⟩
    · by_cases hb : (onSquareClick E sq t.app).1 = true
      · rw [hb]
        simp only [if_true]
        apply inv_runEffect
        show InvApp (onSquareClick E sq t.app).2 t.pending
        exact invApp_congr _ _ _ _ cp ch cc cg cpc rfl ⟨h0, h1⟩
      · rw [Bool.not_eq_true] at hb
        rw [hb]
        simp only [Bool.false_eq_true, if_false]
        show InvApp (onSquareClick E sq t.app).2 t.pending
        exact invApp_congr _ _ _ _ cp ch cc cg cpc rfl ⟨h0, h1⟩
    · rw [hcm, hbtrue]
      simp only [if_true]
      apply inv_runEffect
      show InvApp (makeManualMove E sel sq t.app).2 t.pending
      rcases makeManualMove_core E sel sq t.app with
        ⟨hbf, _⟩ | ⟨_, hpcol, r, hmv, mp, mh, mc, mg, mpc⟩
      · rw [hbtrue] at hbf
        cases hbf
      · have hne : t.app.positions ≠ [] := fun hemp => hpcol (h0 hemp).2.2.1
        exact invApp_append t.app t.pending ⟨h0, h1⟩ hne _ _ r.fen r.san mp mh mc mg
  | resolve t i res hir =>
    apply inv_runEffect
    show InvApp (resolveOracle E (t.pending.get ⟨i, hir⟩) res t.app) (t.pending.eraseIdx i)
    have hne : t.app.positions ≠ [] := by
      intro hemp
      have := (h0 hemp).2.2.2
      rw [this] at hir
      simp at hir
    rcases resolveOracle_core E (t.pending.get ⟨i, hir⟩) res t.app with
      ⟨op, oh, oc, og, opc⟩ | ⟨txt, r, hres, hmt, op, oh, oc, og, opc⟩
    · constructor
      · intro hemp
        rw [op] at hemp
        exact absurd hemp hne
      · intro _
        obtain ⟨a, b, c2, d⟩ := h1 hne
        exact ⟨by rw [oh, op]; exact a, by rw [oc]; exact b,
          by rw [oc, op]; exact c2, by rw [op, og]; exact d⟩
    · exact invApp_append t.app t.pending ⟨h0, h1⟩ hne _ _ r.fen r.san op oh oc og

theorem inv_of_reachable (E : Engine) (t : SysState) (h : Reachable E t) : Inv t := by
  induction h with
  | refl =>
    apply inv_runEffect
    show InvApp (initApp E) []
    constructor
    · intro _
      exact ⟨rfl, rfl, rfl, rfl⟩
    · intro hne
      simp [initApp] at hne
  | tail hr hs ih => exact inv_step E _ _ ih hs

theorem manualColor_eq (s : AppState) (pc : Color) (h : s.playerColor = some pc) :
    manualColor s = some (Color.other pc) := by
  simp [manualColor, h]

theorem makeManualMove_spec (E : Engine) (hWF : E.WF) (s : AppState) (src dst : Square)
    (hs : src ≠ "") (hd : dst ≠ "") :
    ((makeManualMove E src dst s).1 = true ↔ specError E s s.gameFen src dst = none) ∧
    ((makeManualMove E src dst s).1 = false →
      (makeManualMove E src dst s).2.errorMessage = specError E s s.gameFen src dst) := by
  cases hpc : s.playerColor with
  | none =>
    have h1 : isValidManualMove E s = some "Please select a color first" := by
      simp [isValidManualMove, hpc]
    have h2 : specError E s s.gameFen src dst = some "Please select a color first" := by
      simp [specError, hpc]
    rw [h2]
    constructor
    · simp [makeManualMove, h1]
    · intro _
      simp [makeManualMove, h1]
  | some pc =>
    have hmc : manualColor s = some (Color.other pc) := manualColor_eq s pc hpc
    by_cases han : s.isAnalyzing
    · have h1 : isValidManualMove E s = some "Please wait, calculating move..." := by
        simp [isValidManualMove, hpc, han]
      have h2 : specError E s s.gameFen src dst = some "Please wait, calculating move..." := by
        simp [specError, hpc, han]
      rw [h2]
      constructor
      · simp [makeManualMove, h1]
      · intro _
        simp [makeManualMove, h1]
    · by_cases hgo : E.isGameOver s.gameFen
      · have h1 : isValidManualMove E s = some "Game is over" := by
          simp [isValidManualMove, hpc, han, hgo]
        have h2 : specError E s s.gameFen src dst = some "Game is over" := by
          simp [specError, hpc, han, hgo]
        rw [h2]
        constructor
        · simp [makeManualMove, h1]
        · intro _
          simp [makeManualMove, h1]
      · by_cases hturn : E.turn s.gameFen = Color.other pc
        · have h1 : isValidManualMove E s = none := by
            simp [isValidManualMove, hpc, han, hgo, hmc, hturn]
          cases hget : E.get s.gameFen src with
          | none =>
            have h2 : specError E s s.gameFen src dst = some "No piece at selected position" := by
              simp [specError, hpc, han, hgo, hturn, hget]
            have h3 : validateManualMove E src dst s =
                (false, some "No piece at selected position") := by
              simp [validateManualMove, hs, hd, hmc, hget]
            rw [h2]
            constructor
            · simp [makeManualMove, h1, h3, setErr]
            · intro _
              simp [makeManualMove, h1, h3, setErr]
          | some c =>
            by_cases hcm : c = Color.other pc
            · by_cases hmem : dst ∈ E.movesFrom s.gameFen src
              · have h2 : specError E s s.gameFen src dst = none := by
                  simp [specError, hpc, han, hgo, hturn, hget, hcm, hmem]
                have h3 : validateManualMove E src dst s = (true, none) := by
                  simp [validateManualMove, hs, hd, hmc, hget, hcm, hmem]
                obtain ⟨r, hr⟩ := Option.isSome_iff_exists.mp (hWF s.gameFen src dst hmem)
                rw [h2]
                constructor
                · simp [makeManualMove, h1, h3, hr]
                · intro hfalse
                  rw [show (makeManualMove E src dst s).1 = true by
                    simp [makeManualMove, h1, h3, hr]] at hfalse
                  cases hfalse
              · have h2 : specError E s s.gameFen src dst =
                    some "Illegal move for this piece" := by
                  simp [specError, hpc, han, hgo, hturn, hget, hcm, hmem]
                have h3 : validateManualMove E src dst s =
                    (false, some "Illegal move for this piece") := by
                  simp [validateManualMove, hs, hd, hmc, hget, hcm, hmem]
                rw [h2]
                constructor
                · simp [makeManualMove, h1, h3, setErr]
                · intro _
                  simp [makeManualMove, h1, h3, setErr]
            · have h2 : specError E s s.gameFen src dst =
                  some "You can only move the opponent’s pieces manually" := by
                simp [specError, hpc, han, hgo, hturn, hget, hcm]
              have h3 : validateManualMove E src dst s =
                  (false, some "You can only move the opponent’s pieces manually") := by
                simp [validateManualMove, hs, hd, hmc, hget, hcm]
              rw [h2]
              constructor
              · simp [makeManualMove, h1, h3, setErr]
              · intro _
                simp [makeManualMove, h1, h3, setErr]
        · have h1 : isValidManualMove E s =
              some "It is not the opponent’s turn to move" := by
            simp [isValidManualMove, hpc, han, hgo, hmc, hturn]
          have h2 : specError E s s.gameFen src dst =
              some "It is not the opponent’s turn to move" := by
            simp [specError, hpc, han, hgo, hturn]
          rw [h2]
          constructor
          · simp [makeManualMove, h1]
          · intro _
            simp [makeManualMove, h1]

theorem nav_forward_eq (s : AppState) (h0 : 0 ≤ s.currentMoveIndex)
    (hlt : s.currentMoveIndex + 1 ≤ (s.positions.length : Int) - 1) :
    ∃ f, s.positions.get? (s.currentMoveIndex + 1).toNat = some f ∧
      navigateMove .forward s =
        { s with currentMoveIndex := s.currentMoveIndex + 1, currentPosition := f } := by
  have hlt2 : (s.currentMoveIndex + 1).toNat < s.positions.length := by omega
  refine ⟨s.positions.get ⟨(s.currentMoveIndex + 1).toNat, hlt2⟩, List.get?_eq_get hlt2, ?_⟩
  unfold navigateMove
  have hmin : min (s.currentMoveIndex + 1) ((s.positions.length : Int) - 1) =
      s.currentMoveIndex + 1 := min_eq_left hlt
  have hne : s.currentMoveIndex + 1 ≠ s.currentMoveIndex := by omega
  simp only [hmin, hne, if_pos, ne_eq, not_false_iff, List.get?_eq_get hlt2, Option.getD_some]

theorem nav_back_eq (s : AppState) (h0 : 1 ≤ s.currentMoveIndex)
    (hle : s.currentMoveIndex ≤ (s.positions.length : Int) - 1) :
    ∃ f, s.positions.get? (s.currentMoveIndex - 1).toNat = some f ∧
      navigateMove .back s =
        { s with currentMoveIndex := s.currentMoveIndex - 1, currentPosition := f } := by
  have hlt2 : (s.currentMoveIndex - 1).toNat < s.positions.length := by omega
  refine ⟨s.positions.get ⟨(s.currentMoveIndex - 1).toNat, hlt2⟩, List.get?_eq_get hlt2, ?_⟩
  unfold navigateMove
  have hmax : max (s.currentMoveIndex - 1) 0 = s.currentMoveIndex - 1 := by omega
  have hne : s.currentMoveIndex - 1 ≠ s.currentMoveIndex := by omega
  simp only [hmax, hne, if_pos, ne_eq, not_false_iff, List.get?_eq_get hlt2, Option.getD_some]

theorem navN_forward_char (n : Nat) : ∀ s : AppState, Synced s →
    s.currentMoveIndex + n ≤ (s.positions.length : Int) - 1 →
    ∃ f, s.positions.get? (s.currentMoveIndex + n).toNat = some f ∧
      navN .forward n s =
        { s with currentMoveIndex := s.currentMoveIndex + n, currentPosition := f } := by
  induction n with
  | zero =>
    intro s hs _
    refine ⟨s.currentPosition, by simpa using hs.2, ?_⟩
    show navN .forward 0 s = _
    have hz : s.currentMoveIndex + ((0 : Nat) : Int) = s.currentMoveIndex := by simp
    rw [hz]
    rfl
  | succ n ih =>
    intro s hs hran
    have hc0 := hs.1
    obtain ⟨f, hf, heq⟩ := ih s hs (by push_cast at hran ⊢; omega)
    have hstep := nav_forward_eq
      { s with currentMoveIndex := s.currentMoveIndex + n, currentPosition := f }
      (by simp only []; omega) (by simp only []; push_cast at hran ⊢; omega)
    obtain ⟨g, hg, heq2⟩ := hstep
    refine ⟨g, ?_, ?_⟩
    · have hg2 : s.positions.get? (s.currentMoveIndex + (n : Int) + 1).toNat = some g := hg
      have harith : s.currentMoveIndex + ((n : Int) + 1) = s.currentMoveIndex + (n : Int) + 1 := by ring
      push_cast
      rw [harith]
      exact hg2
    · show navigateMove .forward (navN .forward n s) = _
      rw [heq, heq2]
      have harith : s.currentMoveIndex + (n : Int) + 1 = s.currentMoveIndex + (((n : Nat) + 1 : Nat) : Int) := by
        push_cast
        ring
      show ({ s with
        currentMoveIndex := s.currentMoveIndex + (n : Int) + 1, currentPosition := g } : AppState) = _
      rw [harith]

theorem navN_back_char (n : Nat) : ∀ s : AppState, Synced s →
    (n : Int) ≤ s.currentMoveIndex →
    s.currentMoveIndex ≤ (s.positions.length : Int) - 1 →
    ∃ f, s.positions.get? (s.currentMoveIndex - n).toNat = some f ∧
      navN .back n s =
        { s with currentMoveIndex := s.currentMoveIndex - n, currentPosition := f } := by
  induction n with
  | zero =>
    intro s hs _ _
    refine ⟨s.currentPosition, by simpa using hs.2, ?_⟩
    show navN .back 0 s = _
    have hz : s.currentMoveIndex - ((0 : Nat) : Int) = s.currentMoveIndex := by simp
    rw [hz]
    rfl
  | succ n ih =>
    intro s hs hn hle
    obtain ⟨f, hf, heq⟩ := ih s hs (by push_cast at hn ⊢; omega) hle
    have hstep := nav_back_eq
      { s with currentMoveIndex := s.currentMoveIndex - n, currentPosition := f }
      (by simp only []; push_cast at hn ⊢; omega) (by simp only []; omega)
    obtain ⟨g, hg, heq2⟩ := hstep
    refine ⟨g, ?_, ?_⟩
    · have hg2 : s.positions.get? (s.currentMoveIndex - (n : Int) - 1).toNat = some g := hg
      have harith : s.currentMoveIndex - ((n : Int) + 1) = s.currentMoveIndex - (n : Int) - 1 := by ring
      push_cast
      rw [harith]
      exact hg2
    · show navigateMove .back (navN .back n s) = _
      rw [heq, heq2]
      have harith : s.currentMoveIndex - (n : Int) - 1 = s.currentMoveIndex - (((n : Nat) + 1 : Nat) : Int) := by
        push_cast
        ring
      show ({ s with
        currentMoveIndex := s.currentMoveIndex - (n : Int) - 1, currentPosition := g } : AppState) = _
      rw [harith]

theorem navN_roundtrip_fb (s : AppState) (hs : Synced s) (n : Nat)
    (hran : s.currentMoveIndex + n ≤ (s.positions.length : Int) - 1) :
    navN .back n (navN .forward n s) = s := by
  obtain ⟨f, hf, heq⟩ := navN_forward_char n s hs hran
  rw [heq]
  have hs1 : Synced { s with currentMoveIndex := s.currentMoveIndex + n, currentPosition := f } := by
    constructor
    · show 0 ≤ s.currentMoveIndex + (n : Int)
      have := hs.1
      omega
    · exact hf
  obtain ⟨g, hg, heq2⟩ := navN_back_char n
    { s with currentMoveIndex := s.currentMoveIndex + n, currentPosition := f }
    hs1 (by show (n : Int) ≤ s.currentMoveIndex + n; have := hs.1; omega)
    (by show s.currentMoveIndex + (n : Int) ≤ _; exact hran)
  rw [heq2]
  have hc : s.currentMoveIndex + (n : Int) - n = s.currentMoveIndex := by ring
  have hg2 : s.positions.get? (s.currentMoveIndex + (n : Int) - n).toNat = some g := hg
  rw [hc] at hg2
  have hgd : g = s.currentPosition := by
    have := hs.2
    rw [hg2] at this
    exact Option.some.inj this
  show ({ s with
    currentMoveIndex := s.currentMoveIndex + (n : Int) - n, currentPosition := g } : AppState) = s
  rw [hc, hgd]

theorem navN_roundtrip_bf (s : AppState) (hs : Synced s) (n : Nat)
    (hn : (n : Int) ≤ s.currentMoveIndex)
    (hle : s.currentMoveIndex ≤ (s.positions.length : Int) - 1) :
    navN .forward n (navN .back n s) = s := by
  obtain ⟨f, hf, heq⟩ := navN_back_char n s hs hn hle
  rw [heq]
  have hs1 : Synced { s with currentMoveIndex := s.currentMoveIndex - n, currentPosition := f } := by
    constructor
    · show 0 ≤ s.currentMoveIndex - (n : Int)
      omega
    · exact hf
  obtain ⟨g, hg, heq2⟩ := navN_forward_char n
    { s with currentMoveIndex := s.currentMoveIndex - n, currentPosition := f }
    hs1 (by show s.currentMoveIndex - (n : Int) + n ≤ _; have : s.currentMoveIndex - (n : Int) + n = s.currentMoveIndex := by ring
            rw [this]; exact hle)
  rw [heq2]
  have hc : s.currentMoveIndex - (n : Int) + n = s.currentMoveIndex := by ring
  have hg2 : s.positions.get? (s.currentMoveIndex - (n : Int) + n).toNat = some g := hg
  rw [hc] at hg2
  have hgd : g = s.currentPosition := by
    have := hs.2
    rw [hg2] at this
    exact Option.some.inj this
  show ({ s with
    currentMoveIndex := s.currentMoveIndex - (n : Int) + n, currentPosition := g } : AppState) = s
  rw [hc, hgd]

theorem ToyEngine_WF : ToyEngine.WF := by
  intro f src dst h
  by_cases hc : f = "A" ∧ src = "e2"
  · simp only [ToyEngine, hc, and_true, if_true, if_pos] at h ⊢
    simp at h
    simp [h, hc.1, hc.2]
  · simp only [ToyEngine, if_neg hc] at h
    simp at h

/-- C1: the code has no stale-response check.  From reachable `u3` (live
position "B", one request outstanding that was issued against "A"), resolving
that request with "m2" — a move of "A", not of "B" — is applied anyway: the
session history gains the stale move ("m1","m2" in the move log, position "C"
appended), which the claim says must never happen. -/
theorem C1_theorem :
    Reachable ToyEngine u3 ∧ Step ToyEngine u3 u4 ∧
    u3.pending = ["A"] ∧ u3.app.gameFen = "B" ∧
    u3.app.positions.getLast? = some "B" ∧
    resolveBranch ToyEngine "A" (Except.ok "m2") = OracleBranch.applied ∧
    u4.app.positions = ["A", "B", "C"] ∧ u4.app.moveHistory = ["m1", "m2"] :=
  ⟨reach_u3, Step.resolve u3 0 (Except.ok "m2") (by decide), by decide, by decide,
    by decide, by decide, by decide, by decide⟩

/-- C6: mutual exclusion of oracle requests fails.  At reachable `u1` one
request is outstanding and `isAnalyzing` is set; a single `startNewGame`
step resets `isAnalyzing` and the auto-move effect immediately issues a second
request, so two requests are outstanding at once. -/
theorem C6_theorem :
    Reachable ToyEngine u1 ∧ u1.pending.length = 1 ∧ u1.app.isAnalyzing = true ∧
    Step ToyEngine u1 u2 ∧ u2.pending.length = 2 :=
  ⟨reach_u1, by decide, by decide, Step.startNew Color.w u1, by decide⟩

/-- C2 counterexample: from reachable `v1` the successful manual move e2-e4
leads to `v2` whose cursor is 0, not `len(history) - 1 = 1` as claimed. -/
theorem C2_counterexample :
    Reachable ToyEngine v2 ∧ Step ToyEngine v1 v2 ∧
    (makeManualMove ToyEngine "e2" "e4" v1.app).1 = true ∧
    v2.app.currentMoveIndex ≠ (v2.app.positions.length : Int) - 1 :=
  ⟨reach_v2, step_v1_v2, by decide, by decide⟩

/-- C2 amended: in every reachable state with a game in progress, a successful
move application (manual path, or oracle path when the captured position is
still the last one) computes position and notation from `history[last]` (the
live `game`, equal to `positions.getLast`), appends exactly one entry to each
of `history` and `moveLog`, and increments the cursor by exactly one (rather
than setting it to `len(history) - 1`). -/
theorem C2_theorem (E : Engine) (t : SysState) (hr : Reachable E t)
    (hpc : t.app.playerColor ≠ none) :
    (∀ src dst, (makeManualMove E src dst t.app).1 = true →
      ∃ r : MoveResult,
        t.app.positions.getLast? = some t.app.gameFen ∧
        E.move t.app.gameFen src dst = some r ∧
        (makeManualMove E src dst t.app).2.positions = t.app.positions ++ [r.fen] ∧
        (makeManualMove E src dst t.app).2.moveHistory = t.app.moveHistory ++ [r.san] ∧
        (makeManualMove E src dst t.app).2.currentMoveIndex = t.app.currentMoveIndex + 1) ∧
    (∀ captured txt r, t.app.positions.getLast? = some captured → txt ≠ "" →
      E.moveText captured txt = some r →
      (resolveOracle E captured (Except.ok txt) t.app).positions = t.app.positions ++ [r.fen] ∧
      (resolveOracle E captured (Except.ok txt) t.app).moveHistory = t.app.moveHistory ++ [r.san] ∧
      (resolveOracle E captured (Except.ok txt) t.app).currentMoveIndex =
        t.app.currentMoveIndex + 1) := by
  obtain ⟨h0, h1⟩ := inv_of_reachable E t hr
  have hne : t.app.positions ≠ [] := fun hemp => hpc (h0 hemp).2.2.1
  have hlast := (h1 hne).2.2.2
  constructor
  · intro src dst hsucc
    rcases makeManualMove_core E src dst t.app with
      ⟨hb, _⟩ | ⟨_, _, r, hmv, mp, mh, mc, _, _⟩
    · rw [hsucc] at hb
      cases hb
    · exact ⟨r, hlast, hmv, mp, mh, mc⟩
  · intro captured txt r hcap htxt hmt
    simp [resolveOracle, htxt, hmt, clearTransient]

/-- C2 witness: at reachable `v1` the move e2-e4 succeeds and the amended
description holds concretely, as does the oracle-path clause for the request
captured against the last position "A" resolving with "m1". -/
theorem C2_witness :
    (∃ r : MoveResult,
      v1.app.positions.getLast? = some v1.app.gameFen ∧
      ToyEngine.move v1.app.gameFen "e2" "e4" = some r ∧
      (makeManualMove ToyEngine "e2" "e4" v1.app).2.positions = v1.app.positions ++ [r.fen] ∧
      (makeManualMove ToyEngine "e2" "e4" v1.app).2.moveHistory = v1.app.moveHistory ++ [r.san] ∧
      (makeManualMove ToyEngine "e2" "e4" v1.app).2.currentMoveIndex =
        v1.app.currentMoveIndex + 1) ∧
    ((resolveOracle ToyEngine "A" (Except.ok "m1") v1.app).positions =
      v1.app.positions ++ ["B"]) :=
  ⟨(C2_theorem ToyEngine v1 reach_v1 (by decide)).1 "e2" "e4" (by decide),
    ((C2_theorem ToyEngine v1 reach_v1 (by decide)).2 "A" "m1" ⟨"m1", "B"⟩
      (by decide) (by decide) (by decide)).1⟩

/-- C3 counterexample: the initial state (before any start-new-game) is
reachable, yet there `len(moveLog) = len(history) - 1` fails (0 ≠ -1) and the
cursor is -1, outside `[0, len(history) - 1]`. -/
theorem C3_counterexample :
    Reachable ToyEngine (initSys ToyEngine) ∧
    ¬ (((initSys ToyEngine).app.moveHistory.length : Int) =
        ((initSys ToyEngine).app.positions.length : Int) - 1 ∧
      0 ≤ (initSys ToyEngine).app.currentMoveIndex) :=
  ⟨Relation.ReflTransGen.refl, by decide⟩

/-- C3 amended: in every reachable state in which a game has been started
(`history` nonempty), `len(moveLog) + 1 = len(history)` and the cursor lies in
`[-1, len(history) - 1]`; the cursor is -1 (not 0) from a reset until the
first move or navigation, and before the first start-new-game both lists are
empty. -/
theorem C3_theorem (E : Engine) (t : SysState) (h : Reachable E t)
    (hp : t.app.positions ≠ []) :
    t.app.moveHistory.length + 1 = t.app.positions.length ∧
    -1 ≤ t.app.currentMoveIndex ∧
    t.app.currentMoveIndex ≤ (t.app.positions.length : Int) - 1 := by
  obtain ⟨hlen, hlo, hhi, _⟩ := (inv_of_reachable E t h).2 hp
  exact ⟨hlen, hlo, hhi⟩

/-- C3 witness: the amended invariant evaluated on the reachable state `u1`. -/
theorem C3_witness :
    u1.app.moveHistory.length + 1 = u1.app.positions.length ∧
    -1 ≤ u1.app.currentMoveIndex ∧
    u1.app.currentMoveIndex ≤ (u1.app.positions.length : Int) - 1 :=
  C3_theorem ToyEngine u1 reach_u1 (by decide)

/-- C4 counterexample: starting a new game from the initial state leaves the
cursor at -1, not 0 as claimed. -/
theorem C4_counterexample :
    ¬ ((startNewGame ToyEngine Color.w (initSys ToyEngine).app).positions.length = 1 ∧
      (startNewGame ToyEngine Color.w (initSys ToyEngine).app).moveHistory = [] ∧
      (startNewGame ToyEngine Color.w (initSys ToyEngine).app).currentMoveIndex = 0) := by
  decide

/-- C4 amended: a start-new-game step from any prior state whatsoever leaves
`history` with exactly the one initial position, `moveLog` empty, and the
cursor equal to -1 (the source's sentinel for "before the first move"), not 0. -/
theorem C4_theorem (E : Engine) (c : Color) (t : SysState) :
    (runEffect E ⟨startNewGame E c t.app, t.pending⟩).app.positions = [E.initFen] ∧
    (runEffect E ⟨startNewGame E c t.app, t.pending⟩).app.moveHistory = [] ∧
    (runEffect E ⟨startNewGame E c t.app, t.pending⟩).app.currentMoveIndex = -1 := by
  obtain ⟨rp, rh, rc, _, _, _, _⟩ := runEffect_app E ⟨startNewGame E c t.app, t.pending⟩
  exact ⟨by rw [rp]; rfl, by rw [rh]; rfl, by rw [rc]; rfl⟩

/-- C5: a manual move attempt that does not succeed reports exactly the first
applicable error in the specification's order, every check made against
`history[last]` (which is the live `game` of the source), and leaves `history`
and `moveLog` unchanged; the attempt succeeds exactly when no check fails. -/
theorem C5_theorem (E : Engine) (hWF : E.WF) (t : SysState) (hr : Reachable E t)
    (src dst : Square) (hs : src ≠ "") (hd : dst ≠ "") :
    ((makeManualMove E src dst t.app).1 = true ↔
      specError E t.app (t.app.positions.getLast?.getD E.initFen) src dst = none) ∧
    ((makeManualMove E src dst t.app).1 = false →
      (makeManualMove E src dst t.app).2.errorMessage =
        specError E t.app (t.app.positions.getLast?.getD E.initFen) src dst ∧
      (makeManualMove E src dst t.app).2.positions = t.app.positions ∧
      (makeManualMove E src dst t.app).2.moveHistory = t.app.moveHistory) := by
  obtain ⟨h0, h1⟩ := inv_of_reachable E t hr
  have hunch : (makeManualMove E src dst t.app).1 = false →
      (makeManualMove E src dst t.app).2.positions = t.app.positions ∧
      (makeManualMove E src dst t.app).2.moveHistory = t.app.moveHistory := by
    intro hf
    rcases makeManualMove_core E src dst t.app with
      ⟨_, mp, mh, _⟩ | ⟨hb, _⟩
    · exact ⟨mp, mh⟩
    · rw [hf] at hb
      cases hb
  by_cases hemp : t.app.positions = []
  · obtain ⟨_, _, hpcnone, _⟩ := h0 hemp
    have h1v : isValidManualMove E t.app = some "Please select a color first" := by
      simp [isValidManualMove, hpcnone]
    have h2v : specError E t.app (t.app.positions.getLast?.getD E.initFen) src dst =
        some "Please select a color first" := by
      simp [specError, hpcnone]
    rw [h2v]
    refine ⟨by simp [makeManualMove, h1v], fun hf => ⟨?_, hunch hf⟩⟩
    simp [makeManualMove, h1v]
  · have hlast := (h1 hemp).2.2.2
    have hlastd : t.app.positions.getLast?.getD E.initFen = t.app.gameFen := by
      rw [hlast]
      rfl
    rw [hlastd]
    obtain ⟨hiff, herr⟩ := makeManualMove_spec E hWF t.app src dst hs hd
    exact ⟨hiff, fun hf => ⟨herr hf, hunch hf⟩⟩

/-- C5 witness: at the reachable initial state, the attempt e2-e4 fails with
the first applicable error, `NoActiveGame` ("Please select a color first"),
and mutates nothing. -/
theorem C5_witness :
    ((makeManualMove ToyEngine "e2" "e4" (initSys ToyEngine).app).1 = false →
      (makeManualMove ToyEngine "e2" "e4" (initSys ToyEngine).app).2.errorMessage =
        specError ToyEngine (initSys ToyEngine).app
          ((initSys ToyEngine).app.positions.getLast?.getD ToyEngine.initFen) "e2" "e4" ∧
      (makeManualMove ToyEngine "e2" "e4" (initSys ToyEngine).app).2.positions =
        (initSys ToyEngine).app.positions ∧
      (makeManualMove ToyEngine "e2" "e4" (initSys ToyEngine).app).2.moveHistory =
        (initSys ToyEngine).app.moveHistory) ∧
    specError ToyEngine (initSys ToyEngine).app
      ((initSys ToyEngine).app.positions.getLast?.getD ToyEngine.initFen) "e2" "e4" =
      some "Please select a color first" :=
  ⟨(C5_theorem ToyEngine ToyEngine_WF (initSys ToyEngine) Relation.ReflTransGen.refl
      "e2" "e4" (by decide) (by decide)).2, by decide⟩

/-- C7 counterexample: `v2` is reachable (one move just played: cursor 0,
history length 2, both cursors of the round trip inside [0, len-1]), yet
navigating forward then back restores the cursor but NOT the displayed
position — the display ends on "A" although it was "B" before. -/
theorem C7_counterexample :
    Reachable ToyEngine v2 ∧
    0 ≤ v2.app.currentMoveIndex ∧
    v2.app.currentMoveIndex + 1 ≤ (v2.app.positions.length : Int) - 1 ∧
    (navigateMove .back (navigateMove .forward v2.app)).currentMoveIndex =
      v2.app.currentMoveIndex ∧
    (navigateMove .back (navigateMove .forward v2.app)).currentPosition ≠
      v2.app.currentPosition :=
  ⟨reach_v2, by decide, by decide, by decide, by decide⟩

/-- C7 amended: navigation moves the cursor by one step clamped to
`[0, len(history)-1]`, is a no-op at the bounds, and never mutates `history`
or `moveLog`; an equal-length in-range round trip always restores the cursor,
and restores the displayed position exactly when the display was in sync with
the cursor beforehand (immediately after a move it is not: the display shows
`history[last]` while the cursor is one behind, so the first round trip lands
one position early). -/
theorem C7_theorem (s : AppState) (n : Nat)
    (hlen : 1 ≤ s.positions.length) (hlo : -1 ≤ s.currentMoveIndex)
    (hhi : s.currentMoveIndex ≤ (s.positions.length : Int) - 1) :
    (∀ d, (navigateMove d s).positions = s.positions ∧
      (navigateMove d s).moveHistory = s.moveHistory) ∧
    (navigateMove .forward s).currentMoveIndex =
      max 0 (min (s.currentMoveIndex + 1) ((s.positions.length : Int) - 1)) ∧
    (navigateMove .back s).currentMoveIndex =
      max 0 (min (s.currentMoveIndex - 1) ((s.positions.length : Int) - 1)) ∧
    (s.currentMoveIndex = (s.positions.length : Int) - 1 →
      (navigateMove .forward s).currentMoveIndex = s.currentMoveIndex) ∧
    (s.currentMoveIndex = 0 →
      (navigateMove .back s).currentMoveIndex = s.currentMoveIndex) ∧
    (Synced s → s.currentMoveIndex + n ≤ (s.positions.length : Int) - 1 →
      navN .back n (navN .forward n s) = s) ∧
    (Synced s → (n : Int) ≤ s.currentMoveIndex →
      navN .forward n (navN .back n s) = s) := by
  refine ⟨fun d => ⟨(navigateMove_app d s).1, (navigateMove_app d s).2.1⟩, ?_, ?_, ?_, ?_,
    fun hs hr => navN_roundtrip_fb s hs n hr,
    fun hs hn => navN_roundtrip_bf s hs n hn hhi⟩
  · rw [navigateMove_cursor]
    dsimp only
    omega
  · rw [navigateMove_cursor]
    dsimp only
    omega
  · intro hb
    rw [navigateMove_cursor]
    dsimp only
    omega
  · intro hb
    rw [navigateMove_cursor]
    dsimp only
    omega

/-- C7 witness: after navigating forward once from `v2` the display is in
sync; from that state a one-step back-then-forward round trip restores the
state exactly, and the one-step cursor formulas evaluate as stated. -/
theorem C7_witness :
    navN .forward 1 (navN .back 1 (navigateMove .forward v2.app)) =
      navigateMove .forward v2.app ∧
    (navigateMove .forward (navigateMove .forward v2.app)).currentMoveIndex =
      max 0 (min ((navigateMove .forward v2.app).currentMoveIndex + 1)
        (((navigateMove .forward v2.app).positions.length : Int) - 1)) :=
  ⟨(C7_theorem (navigateMove .forward v2.app) 1 (by decide) (by decide) (by decide)).2.2.2.2.2.2
      (by decide) (by decide),
    (C7_theorem (navigateMove .forward v2.app) 1 (by decide) (by decide) (by decide)).2.1⟩

/-- C8 counterexample: at reachable `u1` the outstanding request resolves with
the illegal text "zz"; the failure is surfaced and the history untouched, but
the coordinator does NOT stay idle: with no user action the auto-move effect
immediately issues a fresh request (`pending` back to one entry, analyzing
again) — an automatic retry, which the claim rules out. -/
theorem C8_counterexample :
    Reachable ToyEngine u1 ∧ Step ToyEngine u1 w2 ∧
    resolveBranch ToyEngine "A" (Except.ok "zz") = OracleBranch.invalidMove ∧
    w2.app.errorMessage = some "Invalid AI move" ∧
    w2.app.positions = u1.app.positions ∧
    w2.app.moveHistory = u1.app.moveHistory ∧
    w2.pending = ["A"] ∧ w2.app.isAnalyzing = true :=
  ⟨reach_u1, step_u1_w2, by decide, by decide, by decide, by decide, by decide, by decide⟩

/-- C8 amended: when an outstanding request resolves with a text naming no
legal move of the position it was issued against, the step leaves `history`,
`moveLog` and the live position (hence the side to move) unchanged and
surfaces the "Invalid AI move" failure; the analyzing flag clears, but the
auto-move effect then re-issues a request exactly when the oracle side is
still to move and the game is not over — an automatic retry — and only
otherwise does the coordinator remain idle. -/
theorem C8_theorem (E : Engine) (t : SysState) (i : Nat) (h : i < t.pending.length)
    (txt : String) (htxt : txt ≠ "")
    (hill : E.moveText (t.pending.get ⟨i, h⟩) txt = none) :
    (resolveOracle E (t.pending.get ⟨i, h⟩) (Except.ok txt) t.app).isAnalyzing = false ∧
    (runEffect E ⟨resolveOracle E (t.pending.get ⟨i, h⟩) (Except.ok txt) t.app,
        t.pending.eraseIdx i⟩).app.positions = t.app.positions ∧
    (runEffect E ⟨resolveOracle E (t.pending.get ⟨i, h⟩) (Except.ok txt) t.app,
        t.pending.eraseIdx i⟩).app.moveHistory = t.app.moveHistory ∧
    (runEffect E ⟨resolveOracle E (t.pending.get ⟨i, h⟩) (Except.ok txt) t.app,
        t.pending.eraseIdx i⟩).app.gameFen = t.app.gameFen ∧
    (runEffect E ⟨resolveOracle E (t.pending.get ⟨i, h⟩) (Except.ok txt) t.app,
        t.pending.eraseIdx i⟩).app.errorMessage = some "Invalid AI move" ∧
    (runEffect E ⟨resolveOracle E (t.pending.get ⟨i, h⟩) (Except.ok txt) t.app,
        t.pending.eraseIdx i⟩).pending = t.pending.eraseIdx i ++
      (if effectGuard E (resolveOracle E (t.pending.get ⟨i, h⟩) (Except.ok txt) t.app)
        then [t.app.gameFen] else []) ∧
    (effectGuard E (resolveOracle E (t.pending.get ⟨i, h⟩) (Except.ok txt) t.app) = true ↔
      ∃ c, t.app.playerColor = some c ∧ E.turn t.app.gameFen = c ∧
        E.isGameOver t.app.gameFen = false) := by
  have hres : resolveOracle E (t.pending.get ⟨i, h⟩) (Except.ok txt) t.app =
      clearTransient { t.app with errorMessage := some "Invalid AI move" } := by
    simp only [List.get_eq_getElem] at hill
    simp [resolveOracle, htxt, hill]
  rw [hres]
  refine ⟨rfl, ?_, ?_, ?_, ?_, ?_, ?_⟩
  · exact (runEffect_app E _).1
  · exact (runEffect_app E _).2.1
  · exact (runEffect_app E _).2.2.2.1
  · rw [(runEffect_app E _).2.2.2.2.2.2]
    rfl
  · by_cases hg : effectGuard E
        (clearTransient { t.app with errorMessage := some "Invalid AI move" }) = true
    · simp only [clearTransient] at hg ⊢
      simp [runEffect, hg]
    · simp only [Bool.not_eq_true] at hg
      simp only [clearTransient] at hg ⊢
      simp [runEffect, hg]
  · cases hpc : t.app.playerColor with
    | none => simp [effectGuard, clearTransient, hpc]
    | some c => simp [effectGuard, clearTransient, hpc]

/-- C8 witness: the amended statement applied to the concrete failed
resolution at `u1` — error surfaced, history, move log and position intact. -/
theorem C8_witness :
    w2.app.errorMessage = some "Invalid AI move" ∧
    w2.app.positions = u1.app.positions ∧
    w2.app.moveHistory = u1.app.moveHistory ∧
    w2.app.gameFen = u1.app.gameFen := by
  have h := C8_theorem ToyEngine u1 0 (by decide) "zz" (by decide) (by decide)
  exact ⟨h.2.2.2.2.1, h.2.1, h.2.2.1, h.2.2.2.1⟩

/-- C9 counterexample: at the reachable `v2` (one move played) the
change-side step produces `v3` with the side cleared but the previous game's
`moveHistory`, `positions` and cursor all still in place — the session is not
discarded wholesale. -/
theorem C9_counterexample :
    Reachable ToyEngine v2 ∧ Step ToyEngine v2 v3 ∧
    v2.app.playerColor = some Color.b ∧
    v3.app.playerColor = none ∧
    v3.app.moveHistory = ["e4"] ∧ v3.app.positions = ["A", "B"] ∧
    v3.app.currentMoveIndex = 0 :=
  ⟨reach_v2, step_v2_v3, by decide, by decide, by decide, by decide, by decide⟩

/-- C9 amended: the change-side action only clears the selected side
(`playerColor := null`), which is why no game counts as in progress
afterwards; it leaves `history`, `moveLog`, the cursor, the live position and
the outstanding requests exactly as they were — the session data is replaced
only by the next start-new-game. -/
theorem C9_theorem (E : Engine) (t : SysState) :
    (runEffect E ⟨changeColor t.app, t.pending⟩).app.playerColor = none ∧
    (runEffect E ⟨changeColor t.app, t.pending⟩).app.positions = t.app.positions ∧
    (runEffect E ⟨changeColor t.app, t.pending⟩).app.moveHistory = t.app.moveHistory ∧
    (runEffect E ⟨changeColor t.app, t.pending⟩).app.currentMoveIndex =
      t.app.currentMoveIndex ∧
    (runEffect E ⟨changeColor t.app, t.pending⟩).app.gameFen = t.app.gameFen ∧
    (runEffect E ⟨changeColor t.app, t.pending⟩).pending = t.pending := by
  have hg : effectGuard E (changeColor t.app) = false := by
    simp [effectGuard, changeColor]
  obtain ⟨rp, rh, rc, rg, rpc, _, _⟩ := runEffect_app E ⟨changeColor t.app, t.pending⟩
  refine ⟨by rw [rpc]; rfl, by rw [rp]; rfl, by rw [rh]; rfl, by rw [rc]; rfl,
    by rw [rg]; rfl, ?_⟩
  simp [runEffect, hg]

/-- C10: `getBestMoveOnline` never resolves to a falsy (empty) string — it
either resolves with a non-empty move text or rejects — hence the
`if (!bestMove)` branch of `calculateAndPlayBestMove` ("Failed to get AI move
suggestion") can never run on a value it produced, and a rejection surfaces
through the catch branch as "Error calculating move". -/
theorem C10_theorem (E : Engine) (captured : Fen) (success : Bool) (bm : String)
    (s : AppState) :
    getBestMoveOnline success bm ≠ Except.ok "" ∧
    resolveBranch E captured (getBestMoveOnline success bm) ≠
      OracleBranch.failedSuggestion ∧
    (∀ e, (resolveOracle E captured (Except.error e) s).errorMessage =
      some "Error calculating move") := by
  refine ⟨?_, ?_, fun e => by simp [resolveOracle, clearTransient]⟩
  · unfold getBestMoveOnline
    by_cases hc : success = true ∧ bm ≠ ""
    · rw [if_pos hc]
      intro hcon
      rw [Except.ok.injEq] at hcon
      exact hc.2 hcon
    · rw [if_neg hc]
      intro hcon
      cases hcon
  · unfold getBestMoveOnline resolveBranch
    by_cases hc : success = true ∧ bm ≠ ""
    · rw [if_pos hc]
      dsimp only
      rw [if_neg hc.2]
      cases E.moveText captured bm <;> simp
    · rw [if_neg hc]
      simp


end ChessCompanion
